import Mathlib

/-!
Verification of the mx6502 relocatable-assembler core.

The definitions below are a shallow embedding of the two source files:
  * `model/src/lib.rs`      — the `address` byte utilities (`lo`, `hi`,
    `from_u8_lo_hi`, `on_different_pages`);
  * `assembler/src/lib.rs`  — the program `Block` builder, its emit methods,
    and `Block::assemble`.

Modelling conventions:
  * `u16` values are `Nat`s; every place the Rust code wraps (the emit
    methods use `wrapping_add`, and plain `u16 +` in `assemble` wraps in
    release builds) is written with an explicit `% 65536`.
  * `i16`/`i8` arithmetic (the relative-branch displacement) is `Int` with
    explicit two's-complement reduction.
  * The output buffer is a `List Nat`.  Rust's `buffer[i] = v` panics when
    `i` is out of range, so a single indexed store is an `Option`-valued
    operation (`none` = panic) and every computation that can reach such a
    store is `Option`-valued.
  * `BTreeMap<String, Address>` is an association list with unique keys;
    `get` is `findLabel`.  `Vec::push` appends on the right.
  * `Block::assemble` returns its `Result` together with the final state of
    the caller's buffer (a `&mut Vec<u8>` out-parameter in the source), and
    the whole thing is wrapped in `Option` for the possible panic.
-/

namespace MX6502

/-- `pub type Address = u16;` -/
abbrev Address := Nat

namespace address

/-- `address as u8` -/
def lo (address : Address) : Nat := address % 256

/-- `address.wrapping_shr(8) as u8` -/
def hi (address : Address) : Nat := (address >>> 8) % 256

/-- `(hi as Address).wrapping_shl(8) | lo as Address` -/
def from_u8_lo_hi (lo hi : Nat) : Address := ((hi <<< 8) % 65536) ||| lo

/-- `from_u8_lo_hi(lo, hi)` with arguments flipped. -/
def from_u8_hi_lo (hi lo : Nat) : Address := from_u8_lo_hi lo hi

/-- `a.wrapping_shr(8) != b.wrapping_shr(8)` -/
def on_different_pages (a b : Address) : Bool := a >>> 8 != b >>> 8

end address

/-- The `Data` enum of `assembler/src/lib.rs`. -/
inductive Data where
  | literalByte (byte : Nat)
  | labelOffsetLe (label : String)
  | literalOffsetLe (offset : Address)
  | literalAddressLe (address : Address)
  | labelOffsetLo (label : String)
  | labelOffsetHi (label : String)
  | labelRelativeOffset (label : String)
deriving DecidableEq

/-- `struct DataAtOffset { data: Data, offset: Address }` -/
structure DataAtOffset where
  data : Data
  offset : Address
deriving DecidableEq

/-- `pub struct Block` — cursor, program, and label table. -/
structure Block where
  cursor_offset : Address
  program : List DataAtOffset
  labels : List (String × Address)
deriving DecidableEq

/-- The `Error` enum of `assembler/src/lib.rs`. -/
inductive Error where
  | offsetOutOfBounds
  | undeclaredLabel (label : String)
  | branchTargetOutOfRange (label : String)
deriving DecidableEq

/-- `BTreeMap::get` on the association-list model of the label table. -/
def findLabel : List (String × Address) → String → Option Address
  | [], _ => none
  | (k, v) :: rest, name => if k = name then some v else findLabel rest name

/-- `Block::new` -/
def Block.new : Block := { cursor_offset := 0, program := [], labels := [] }

/-- `Block::set_offset` -/
def Block.set_offset (self : Block) (offset : Address) : Block :=
  { self with cursor_offset := offset }

/-- `Block::literal_byte` -/
def Block.literal_byte (self : Block) (byte : Nat) : Block :=
  { self with
    program := self.program ++ [{ data := Data.literalByte byte, offset := self.cursor_offset }],
    cursor_offset := (self.cursor_offset + 1) % 65536 }

/-- `Block::literal_offset_le` -/
def Block.literal_offset_le (self : Block) (offset : Address) : Block :=
  { self with
    program := self.program ++ [{ data := Data.literalOffsetLe offset, offset := self.cursor_offset }],
    cursor_offset := (self.cursor_offset + 2) % 65536 }

/-- `Block::literal_address_le` -/
def Block.literal_address_le (self : Block) (offset : Address) : Block :=
  { self with
    program := self.program ++ [{ data := Data.literalAddressLe offset, offset := self.cursor_offset }],
    cursor_offset := (self.cursor_offset + 2) % 65536 }

/-- `Block::label_offset_le` -/
def Block.label_offset_le (self : Block) (label : String) : Block :=
  { self with
    program := self.program ++ [{ data := Data.labelOffsetLe label, offset := self.cursor_offset }],
    cursor_offset := (self.cursor_offset + 2) % 65536 }

/-- `Block::label_offset_lo` -/
def Block.label_offset_lo (self : Block) (label : String) : Block :=
  { self with
    program := self.program ++ [{ data := Data.labelOffsetLo label, offset := self.cursor_offset }],
    cursor_offset := (self.cursor_offset + 1) % 65536 }

/-- `Block::label_offset_hi` -/
def Block.label_offset_hi (self : Block) (label : String) : Block :=
  { self with
    program := self.program ++ [{ data := Data.labelOffsetHi label, offset := self.cursor_offset }],
    cursor_offset := (self.cursor_offset + 1) % 65536 }

/-- `Block::label_relative_offset` -/
def Block.label_relative_offset (self : Block) (label : String) : Block :=
  { self with
    program := self.program ++ [{ data := Data.labelRelativeOffset label, offset := self.cursor_offset }],
    cursor_offset := (self.cursor_offset + 1) % 65536 }

/-- `Block::label`: insert, and panic (`none`) if the name was already
present.  (The Rust code inserts first and panics on a `Some` previous
value; since the panic aborts, the post-state on the duplicate path is
unobservable and only the `none` matters.) -/
def Block.label (self : Block) (s : String) : Option Block :=
  if (findLabel self.labels s).isSome then none
  else some { self with labels := self.labels ++ [(s, self.cursor_offset)] }

/-- Rust `buffer[i] = v` on a `Vec<u8>`: panics (`none`) out of range. -/
def writeByte (buffer : List Nat) (i : Nat) (v : Nat) : Option (List Nat) :=
  if i < buffer.length then some (buffer.set i v) else none

/-- `u16 as i16` (two's-complement reinterpretation). -/
def i16OfU16 (n : Nat) : Int := if n < 32768 then (n : Int) else (n : Int) - 65536

/-- Reduce an `Int` to the `i16` range, as release-mode Rust `i16`
arithmetic does on overflow. -/
def wrapI16 (x : Int) : Int := (x + 32768) % 65536 - 32768

/-- `(delta as i8) as u8` for `delta : i16` in `[-128, 127]` (and, more
generally, the low byte of the two's-complement representation). -/
def u8OfI8 (x : Int) : Nat := (x % 256).toNat

/-- `Vec::resize(size, 0)`: truncate or extend with zeros. -/
def vecResize (buffer : List Nat) (size : Nat) : List Nat :=
  buffer.take size ++ List.replicate (size - buffer.length) 0

/-- `pub struct AssembledBlock` -/
structure AssembledBlock where
  labels : List (String × Address)
deriving DecidableEq

/-- The relocation loop at the top of `Block::assemble`:
`labels.insert(label.clone(), address + base)` for every entry. -/
def relocateLabels (labels : List (String × Address)) (base : Address) :
    List (String × Address) :=
  labels.map fun p => (p.1, (p.2 + base) % 65536)

/-- One iteration of the patch loop of `Block::assemble`, acting on one
`DataAtOffset`.  `none` is a panic (unchecked index out of range); errors
are returned before any write of the same arm, as in the source. -/
def patchStep (labels : List (String × Address)) (base : Address) (size : Nat)
    (buffer : List Nat) : DataAtOffset → Option (Except Error (List Nat))
  | ⟨Data.literalByte byte, offset⟩ =>
    if size ≤ offset then some (Except.error Error.offsetOutOfBounds)
    else (writeByte buffer offset byte).map Except.ok
  | ⟨Data.labelOffsetLe label, offset⟩ =>
    match findLabel labels label with
    | some label_offset =>
      if size ≤ offset + 1 then some (Except.error Error.offsetOutOfBounds)
      else
        let addr := (label_offset + base) % 65536
        ((writeByte buffer offset (address.lo addr)).bind fun b =>
          writeByte b (offset + 1) (address.hi addr)).map Except.ok
    | none => some (Except.error (Error.undeclaredLabel label))
  | ⟨Data.literalOffsetLe literal_offset, offset⟩ =>
    if size ≤ offset + 1 then some (Except.error Error.offsetOutOfBounds)
    else
      let addr := (literal_offset + base) % 65536
      ((writeByte buffer offset (address.lo addr)).bind fun b =>
        writeByte b (offset + 1) (address.hi addr)).map Except.ok
  | ⟨Data.literalAddressLe a, offset⟩ =>
    ((writeByte buffer offset (address.lo a)).bind fun b =>
      writeByte b (offset + 1) (address.hi a)).map Except.ok
  | ⟨Data.labelOffsetLo label, offset⟩ =>
    match findLabel labels label with
    | some label_offset =>
      if size ≤ offset + 1 then some (Except.error Error.offsetOutOfBounds)
      else (writeByte buffer offset (address.lo ((label_offset + base) % 65536))).map Except.ok
    | none => some (Except.error (Error.undeclaredLabel label))
  | ⟨Data.labelOffsetHi label, offset⟩ =>
    match findLabel labels label with
    | some label_offset =>
      if size ≤ offset + 1 then some (Except.error Error.offsetOutOfBounds)
      else (writeByte buffer offset (address.hi ((label_offset + base) % 65536))).map Except.ok
    | none => some (Except.error (Error.undeclaredLabel label))
  | ⟨Data.labelRelativeOffset label, offset⟩ =>
    match findLabel labels label with
    | some label_offset =>
      let delta := wrapI16 (wrapI16 (i16OfU16 label_offset - i16OfU16 offset) - 1)
      if delta < -128 ∨ 127 < delta then
        some (Except.error (Error.branchTargetOutOfRange label))
      else (writeByte buffer offset (u8OfI8 delta)).map Except.ok
    | none => some (Except.error (Error.undeclaredLabel label))

/-- The patch loop of `Block::assemble` over the whole program.  Returns
the error (if any) together with the buffer state at that point, since the
buffer is a `&mut` out-parameter in the source. -/
def runPatch (labels : List (String × Address)) (base : Address) (size : Nat) :
    List DataAtOffset → List Nat → Option (Option Error × List Nat)
  | [], buffer => some (none, buffer)
  | d :: rest, buffer =>
    match patchStep labels base size buffer d with
    | none => none
    | some (Except.error e) => some (some e, buffer)
    | some (Except.ok buffer2) => runPatch labels base size rest buffer2

/-- `Block::assemble`.  The pair is the returned `Result` plus the final
contents of the caller's buffer; `none` is a panic. -/
def Block.assemble (self : Block) (base : Address) (size : Nat) (buffer : List Nat) :
    Option (Except Error AssembledBlock × List Nat) :=
  match runPatch self.labels base size self.program (vecResize buffer size) with
  | none => none
  | some (some e, buffer2) => some (Except.error e, buffer2)
  | some (none, buffer2) =>
    some (Except.ok { labels := relocateLabels self.labels base }, buffer2)

/-- `AssembledBlock::address_of_label` -/
def AssembledBlock.address_of_label (self : AssembledBlock) (label : String) :
    Option Address :=
  findLabel self.labels label

/-! ### Derived notions used by the specification -/

/-- The byte width of each statement kind, from the spec's statement table. -/
def Data.width : Data → Nat
  | Data.literalByte _ => 1
  | Data.labelOffsetLe _ => 2
  | Data.literalOffsetLe _ => 2
  | Data.literalAddressLe _ => 2
  | Data.labelOffsetLo _ => 1
  | Data.labelOffsetHi _ => 1
  | Data.labelRelativeOffset _ => 1

/-- The label referenced by a statement, if it is of a label-referencing kind. -/
def Data.labelRef : Data → Option String
  | Data.labelOffsetLe l => some l
  | Data.labelOffsetLo l => some l
  | Data.labelOffsetHi l => some l
  | Data.labelRelativeOffset l => some l
  | _ => none

/-- The buffer positions a positioned statement patches: its own offset,
plus `offset + 1` for the 2-byte kinds. -/
def DataAtOffset.writesAt (d : DataAtOffset) (i : Nat) : Prop :=
  i = d.offset ∨ (d.data.width = 2 ∧ i = d.offset + 1)

instance (d : DataAtOffset) (i : Nat) : Decidable (d.writesAt i) :=
  inferInstanceAs (Decidable (i = d.offset ∨ (d.data.width = 2 ∧ i = d.offset + 1)))

/-- A builder call, for reasoning about arbitrary sequences of builder
operations. -/
inductive Op where
  | set_offset (offset : Address)
  | literal_byte (byte : Nat)
  | literal_offset_le (offset : Address)
  | literal_address_le (address : Address)
  | label_offset_le (label : String)
  | label_offset_lo (label : String)
  | label_offset_hi (label : String)
  | label_relative_offset (label : String)
  | label (s : String)

/-- Perform one builder call (`none` = the duplicate-label panic). -/
def applyOp (blk : Block) : Op → Option Block
  | Op.set_offset o => some (blk.set_offset o)
  | Op.literal_byte b => some (blk.literal_byte b)
  | Op.literal_offset_le o => some (blk.literal_offset_le o)
  | Op.literal_address_le a => some (blk.literal_address_le a)
  | Op.label_offset_le l => some (blk.label_offset_le l)
  | Op.label_offset_lo l => some (blk.label_offset_lo l)
  | Op.label_offset_hi l => some (blk.label_offset_hi l)
  | Op.label_relative_offset l => some (blk.label_relative_offset l)
  | Op.label s => blk.label s

/-- Perform a sequence of builder calls. -/
def applyOps : Block → List Op → Option Block
  | blk, [] => some blk
  | blk, op :: rest =>
    match applyOp blk op with
    | none => none
    | some blk2 => applyOps blk2 rest

/-- The cursor value after one builder call starting from `cursor`. -/
def opAdvance (cursor : Address) : Op → Address
  | Op.set_offset o => o
  | Op.literal_byte _ => (cursor + 1) % 65536
  | Op.literal_offset_le _ => (cursor + 2) % 65536
  | Op.literal_address_le _ => (cursor + 2) % 65536
  | Op.label_offset_le _ => (cursor + 2) % 65536
  | Op.label_offset_lo _ => (cursor + 1) % 65536
  | Op.label_offset_hi _ => (cursor + 1) % 65536
  | Op.label_relative_offset _ => (cursor + 1) % 65536
  | Op.label _ => cursor

/-- The cursor value at the first declaration of `name` in a builder-call
sequence starting from cursor `cursor`, if any. -/
def firstDeclCursor (cursor : Address) : List Op → String → Option Address
  | [], _ => none
  | Op.label s :: rest, name =>
    if s = name then some cursor else firstDeclCursor cursor rest name
  | op :: rest, name => firstDeclCursor (opAdvance cursor op) rest name

/-- The pure write a successful patch of one statement performs (the error
and panic checks stripped; on a lookup miss nothing is written).  Used to
factor `patchStep` for the idempotence argument. -/
def writeData (labels : List (String × Address)) (base : Address)
    (buffer : List Nat) : DataAtOffset → List Nat
  | ⟨Data.literalByte byte, offset⟩ => buffer.set offset byte
  | ⟨Data.labelOffsetLe label, offset⟩ =>
    match findLabel labels label with
    | some label_offset =>
      let addr := (label_offset + base) % 65536
      (buffer.set offset (address.lo addr)).set (offset + 1) (address.hi addr)
    | none => buffer
  | ⟨Data.literalOffsetLe literal_offset, offset⟩ =>
    let addr := (literal_offset + base) % 65536
    (buffer.set offset (address.lo addr)).set (offset + 1) (address.hi addr)
  | ⟨Data.literalAddressLe a, offset⟩ =>
    (buffer.set offset (address.lo a)).set (offset + 1) (address.hi a)
  | ⟨Data.labelOffsetLo label, offset⟩ =>
    match findLabel labels label with
    | some label_offset => buffer.set offset (address.lo ((label_offset + base) % 65536))
    | none => buffer
  | ⟨Data.labelOffsetHi label, offset⟩ =>
    match findLabel labels label with
    | some label_offset => buffer.set offset (address.hi ((label_offset + base) % 65536))
    | none => buffer
  | ⟨Data.labelRelativeOffset label, offset⟩ =>
    match findLabel labels label with
    | some label_offset =>
      buffer.set offset
        (u8OfI8 (wrapI16 (wrapI16 (i16OfU16 label_offset - i16OfU16 offset) - 1)))
    | none => buffer

/-- `writeData` folded over a whole program. -/
def applyWrites (labels : List (String × Address)) (base : Address) :
    List DataAtOffset → List Nat → List Nat
  | [], buffer => buffer
  | d :: rest, buffer => applyWrites labels base rest (writeData labels base buffer d)

/-! ### Concrete programs exercising the patch arms -/

/-- A single relative-branch statement at offset `o`, whose target label is
declared at block-relative offset `L`. -/
def relBranchBlock (name : String) (o L : Address) : Block :=
  { cursor_offset := 0
    program := [⟨Data.labelRelativeOffset name, o⟩]
    labels := [(name, L)] }

/-- The block built by referencing `name` (full-address encoding) at offset
`o` before declaring it at offset `L`. -/
def fwdRefBlock (name : String) (o L : Address) : Block :=
  { cursor_offset := L
    program := [⟨Data.labelOffsetLe name, o⟩]
    labels := [(name, L)] }

/-- A 2-byte literal address emitted at offset 3 (so its high byte lands at
index 4), built through the public builder API. -/
def blkLiteralAddressAtEnd : Block :=
  (Block.new.set_offset 3).literal_address_le 0x1234

/-- A 1-byte low-byte label reference positioned at offset 3. -/
def blkLoAtLastByte : Block :=
  { cursor_offset := 4
    program := [⟨Data.labelOffsetLo "a", 3⟩]
    labels := [("a", 0)] }

/-- A 1-byte relative-branch statement positioned at offset 4. -/
def blkRelPastEnd : Block :=
  { cursor_offset := 5
    program := [⟨Data.labelRelativeOffset "a", 4⟩]
    labels := [("a", 4)] }

/-! ### Helper lemmas -/

theorem vecResize_nil (size : Nat) : vecResize [] size = List.replicate size 0 := by
  unfold vecResize
  simp

theorem findLabel_map_reloc (l : List (String × Address)) (base : Address) (name : String) :
    findLabel (relocateLabels l base) name =
      (findLabel l name).map (fun off => (off + base) % 65536) := by
  induction l with
  | nil => rfl
  | cons p rest ih =>
    obtain ⟨k, v⟩ := p
    unfold relocateLabels at ih ⊢
    simp only [List.map_cons, findLabel]
    by_cases h : k = name
    · simp [h]
    · simp [h, ih]

/-! ### Claims -/

/-- Claim C10: for every 16-bit value `x`, composing the extracted bytes
reproduces `x`: `from_u8_lo_hi (lo x) (hi x) = x`. -/
theorem address_lo_hi_roundtrip (x : Nat) (hx : x < 65536) :
    address.from_u8_lo_hi (address.lo x) (address.hi x) = x := by
  unfold address.from_u8_lo_hi address.lo address.hi
  have e1 : x >>> 8 = x / 256 := by rw [Nat.shiftRight_eq_div_pow]
  have e2 : ∀ a : Nat, a <<< 8 = a * 256 := fun a => by rw [Nat.shiftLeft_eq]
  rw [e1, e2]
  rw [Nat.mod_eq_of_lt (show x / 256 < 256 by omega)]
  rw [Nat.mod_eq_of_lt (show x / 256 * 256 < 65536 by omega)]
  rw [Nat.mul_comm (x / 256) 256]
  have key := Nat.mul_add_lt_is_or (show x % 256 < 2 ^ 8 by omega) (x / 256)
  have h28 : (2 : Nat) ^ 8 = 256 := by norm_num
  rw [h28] at key
  rw [← key]
  exact (by omega : 256 * (x / 256) + x % 256 = x)

/-- Witness for C10 at `x = 0xABCD`. -/
theorem address_lo_hi_roundtrip_witness :
    address.from_u8_lo_hi (address.lo 0xABCD) (address.hi 0xABCD) = 0xABCD :=
  address_lo_hi_roundtrip 0xABCD (by decide)

/-- Claim C9: every emit operation appends its statement positioned at the
current cursor offset and advances the cursor by exactly the statement's
byte width modulo `2^16` (1 for `literal_byte`, `label_offset_lo`,
`label_offset_hi`, `label_relative_offset`; 2 for `literal_offset_le`,
`literal_address_le`, `label_offset_le`). -/
theorem emit_cursor_advance (blk : Block) (byte : Nat) (off : Address) (s : String) :
    ((blk.literal_byte byte).program
        = blk.program ++ [⟨Data.literalByte byte, blk.cursor_offset⟩]
      ∧ (blk.literal_byte byte).cursor_offset
        = (blk.cursor_offset + (Data.literalByte byte).width) % 65536)
  ∧ ((blk.literal_offset_le off).program
        = blk.program ++ [⟨Data.literalOffsetLe off, blk.cursor_offset⟩]
      ∧ (blk.literal_offset_le off).cursor_offset
        = (blk.cursor_offset + (Data.literalOffsetLe off).width) % 65536)
  ∧ ((blk.literal_address_le off).program
        = blk.program ++ [⟨Data.literalAddressLe off, blk.cursor_offset⟩]
      ∧ (blk.literal_address_le off).cursor_offset
        = (blk.cursor_offset + (Data.literalAddressLe off).width) % 65536)
  ∧ ((blk.label_offset_le s).program
        = blk.program ++ [⟨Data.labelOffsetLe s, blk.cursor_offset⟩]
      ∧ (blk.label_offset_le s).cursor_offset
        = (blk.cursor_offset + (Data.labelOffsetLe s).width) % 65536)
  ∧ ((blk.label_offset_lo s).program
        = blk.program ++ [⟨Data.labelOffsetLo s, blk.cursor_offset⟩]
      ∧ (blk.label_offset_lo s).cursor_offset
        = (blk.cursor_offset + (Data.labelOffsetLo s).width) % 65536)
  ∧ ((blk.label_offset_hi s).program
        = blk.program ++ [⟨Data.labelOffsetHi s, blk.cursor_offset⟩]
      ∧ (blk.label_offset_hi s).cursor_offset
        = (blk.cursor_offset + (Data.labelOffsetHi s).width) % 65536)
  ∧ ((blk.label_relative_offset s).program
        = blk.program ++ [⟨Data.labelRelativeOffset s, blk.cursor_offset⟩]
      ∧ (blk.label_relative_offset s).cursor_offset
        = (blk.cursor_offset + (Data.labelRelativeOffset s).width) % 65536) :=
  ⟨⟨rfl, rfl⟩, ⟨rfl, rfl⟩, ⟨rfl, rfl⟩, ⟨rfl, rfl⟩, ⟨rfl, rfl⟩, ⟨rfl, rfl⟩, ⟨rfl, rfl⟩⟩

/-- Witness for C9: emitting the 2-byte `label_offset_le` with the cursor at
`0xFFFF` wraps the cursor to `0x0001`. -/
theorem emit_cursor_advance_witness :
    ((Block.new.set_offset 0xFFFF).label_offset_le "L").cursor_offset = 0x0001 :=
  (emit_cursor_advance (Block.new.set_offset 0xFFFF) 0 0 "L").2.2.2.1.2.trans (by decide)

/-- Claim C1 (code bug): the bounds discipline the spec describes is not what
the code does.  At the spec's own out-of-bounds test input — a 2-byte literal
address at offset 3 resolved with `size = 4` — the `LiteralAddressLe` arm has
no bounds check and panics on the out-of-range index 4 (`none`) instead of
returning `OffsetOutOfBounds`.  Moreover the 1-byte `LabelOffsetLo` at offset
`size - 1` spuriously fails the `offset + 1 >= size` check, and the unchecked
1-byte `LabelRelativeOffset` at an offset `≥ size` panics. -/
theorem assemble_bounds_divergences :
    blkLiteralAddressAtEnd.assemble 0 4 [] = none
  ∧ blkLoAtLastByte.assemble 0 4 []
      = some (Except.error Error.offsetOutOfBounds, List.replicate 4 0)
  ∧ blkRelPastEnd.assemble 0 4 [] = none :=
  ⟨rfl, rfl, rfl⟩

/-- Counterexample to claim C2: `Vec::resize(size, 0)` keeps the caller's
existing bytes, so for the initial buffer `[5]`, the empty program, and
`size = 1`, resolution succeeds yet the unwritten position 0 holds 5, not 0. -/
theorem assemble_zero_init_counterexample :
    Block.new.assemble 0 1 [5] = some (Except.ok { labels := [] }, [5])
  ∧ ([5] : List Nat)[0]? ≠ some 0 :=
  ⟨rfl, by decide⟩

/-- Claim C4: on successful resolution with base `b`, looking up any name in
the returned block gives exactly the builder-table offset plus `b` under
16-bit wrapping addition — `some ((offset + b) % 2^16)` for declared names
and `none` for undeclared ones. -/
theorem assemble_address_of_label (blk : Block) (base : Address) (size : Nat)
    (buffer : List Nat) (asm : AssembledBlock) (out : List Nat) (name : String)
    (h : blk.assemble base size buffer = some (Except.ok asm, out)) :
    asm.address_of_label name
      = (findLabel blk.labels name).map (fun off => (off + base) % 65536) := by
  unfold Block.assemble at h
  cases hrp : runPatch blk.labels base size blk.program (vecResize buffer size) with
  | none => rw [hrp] at h; simp at h
  | some pr =>
    obtain ⟨e?, buf2⟩ := pr
    cases e? with
    | none =>
      rw [hrp] at h
      simp only [Option.some.injEq, Prod.mk.injEq, Except.ok.injEq] at h
      rw [← h.1]
      unfold AssembledBlock.address_of_label
      exact findLabel_map_reloc blk.labels base name
    | some e => rw [hrp] at h; simp at h

/-- Witness for C4: a block declaring label `"a"` at offset 3, resolved with
base 16, maps `"a"` to 19 and an undeclared name to `none`. -/
theorem assemble_address_of_label_witness :
    (({ labels := [("a", 19)] } : AssembledBlock).address_of_label "a" = some 19)
  ∧ (({ labels := [("a", 19)] } : AssembledBlock).address_of_label "b" = none) :=
  ⟨(assemble_address_of_label
      { cursor_offset := 3, program := [], labels := [("a", 3)] } 16 0 []
      { labels := [("a", 19)] } [] "a" rfl).trans rfl,
   (assemble_address_of_label
      { cursor_offset := 3, program := [], labels := [("a", 3)] } 16 0 []
      { labels := [("a", 19)] } [] "b" rfl).trans rfl⟩

/-- Claim C3: a `LabelRelativeOffset` at offset `o` targeting a label at
unrelocated offset `L` resolves via the displacement
`delta = L - (o + 1)` in wrapping signed 16-bit arithmetic, independently of
the base address; out of `[-128, 127]` it fails with
`BranchTargetOutOfRange` naming the label, otherwise the signed byte `delta`
is stored at buffer index `o`. -/
theorem labelRelativeOffset_branch_semantics (name : String) (o L base size : Nat)
    (ho : o < size) (ho16 : o < 65536) (hL : L < 65536) :
    wrapI16 (wrapI16 (i16OfU16 L - i16OfU16 o) - 1) = wrapI16 ((L : Int) - (o + 1))
  ∧ ((wrapI16 ((L : Int) - (o + 1)) < -128 ∨ 127 < wrapI16 ((L : Int) - (o + 1))) →
      (relBranchBlock name o L).assemble base size []
        = some (Except.error (Error.branchTargetOutOfRange name), List.replicate size 0))
  ∧ (-128 ≤ wrapI16 ((L : Int) - (o + 1)) → wrapI16 ((L : Int) - (o + 1)) ≤ 127 →
      (relBranchBlock name o L).assemble base size []
        = some (Except.ok { labels := [(name, (L + base) % 65536)] },
            (List.replicate size 0).set o (u8OfI8 (wrapI16 ((L : Int) - (o + 1)))))) := by
  have heq : wrapI16 (wrapI16 (i16OfU16 L - i16OfU16 o) - 1) = wrapI16 ((L : Int) - (o + 1)) := by
    unfold wrapI16 i16OfU16
    split_ifs <;> omega
  refine ⟨heq, fun hd => ?_, fun h1 h2 => ?_⟩
  · unfold Block.assemble relBranchBlock runPatch patchStep
    simp only [vecResize_nil, findLabel, eq_self_iff_true, if_true]
    rw [if_pos (heq ▸ hd)]
  · rw [← heq]
    unfold Block.assemble relBranchBlock runPatch patchStep writeByte relocateLabels
    simp only [vecResize_nil, findLabel, eq_self_iff_true, if_true]
    rw [if_neg (show ¬ (wrapI16 (wrapI16 (i16OfU16 L - i16OfU16 o) - 1) < -128
      ∨ 127 < wrapI16 (wrapI16 (i16OfU16 L - i16OfU16 o) - 1)) from heq ▸ not_or.mpr ⟨by omega, by omega⟩)]
    simp only [List.length_replicate, if_pos ho]
    simp [runPatch]

/-- Witness for C3: at offset 0, a target at offset 129 fails
(`delta = 128`) while a target at offset 128 stores byte 127. -/
theorem labelRelativeOffset_branch_semantics_witness :
    (relBranchBlock "T" 0 129).assemble 0 4 []
      = some (Except.error (Error.branchTargetOutOfRange "T"), List.replicate 4 0)
  ∧ (relBranchBlock "T" 0 128).assemble 0 4 []
      = some (Except.ok { labels := [("T", 128)] }, [127, 0, 0, 0]) :=
  ⟨(labelRelativeOffset_branch_semantics "T" 0 129 0 4 (by decide) (by decide)
      (by decide)).2.1 (by decide),
   ((labelRelativeOffset_branch_semantics "T" 0 128 0 4 (by decide) (by decide)
      (by decide)).2.2 (by decide) (by decide)).trans rfl⟩

theorem patchStep_ok_labelRef (lbls : List (String × Address)) (base : Address)
    (size : Nat) (buffer buf2 : List Nat) (d : DataAtOffset) (name : String)
    (hps : patchStep lbls base size buffer d = some (Except.ok buf2))
    (href : d.data.labelRef = some name) : (findLabel lbls name).isSome = true := by
  obtain ⟨data, off⟩ := d
  cases data with
  | literalByte b => simp [Data.labelRef] at href
  | literalOffsetLe o2 => simp [Data.labelRef] at href
  | literalAddressLe a => simp [Data.labelRef] at href
  | labelOffsetLe l =>
    simp only [Data.labelRef, Option.some.injEq] at href
    rw [← href]
    unfold patchStep at hps
    dsimp only at hps
    cases hfl : findLabel lbls l with
    | none => rw [hfl] at hps; simp at hps
    | some v => simp [hfl]
  | labelOffsetLo l =>
    simp only [Data.labelRef, Option.some.injEq] at href
    rw [← href]
    unfold patchStep at hps
    dsimp only at hps
    cases hfl : findLabel lbls l with
    | none => rw [hfl] at hps; simp at hps
    | some v => simp [hfl]
  | labelOffsetHi l =>
    simp only [Data.labelRef, Option.some.injEq] at href
    rw [← href]
    unfold patchStep at hps
    dsimp only at hps
    cases hfl : findLabel lbls l with
    | none => rw [hfl] at hps; simp at hps
    | some v => simp [hfl]
  | labelRelativeOffset l =>
    simp only [Data.labelRef, Option.some.injEq] at href
    rw [← href]
    unfold patchStep at hps
    dsimp only at hps
    cases hfl : findLabel lbls l with
    | none => rw [hfl] at hps; simp at hps
    | some v => simp [hfl]

theorem runPatch_ok_labelRef (lbls : List (String × Address)) (base : Address)
    (size : Nat) : ∀ (stmts : List DataAtOffset) (buffer out : List Nat),
    runPatch lbls base size stmts buffer = some (none, out) →
    ∀ d ∈ stmts, ∀ name, d.data.labelRef = some name →
      (findLabel lbls name).isSome = true := by
  intro stmts
  induction stmts with
  | nil => intro buffer out h d hd; simp at hd
  | cons d0 rest ih =>
    intro buffer out h d hd name href
    unfold runPatch at h
    cases hps : patchStep lbls base size buffer d0 with
    | none => rw [hps] at h; simp at h
    | some r =>
      cases r with
      | error e => rw [hps] at h; simp at h
      | ok buf2 =>
        rw [hps] at h
        simp only at h
        rcases List.mem_cons.mp hd with h0 | hrest
        · subst h0
          exact patchStep_ok_labelRef lbls base size buffer buf2 d name hps href
        · exact ih buf2 out h d hrest name href

/-- Claim C6: a statement of a label-referencing kind whose name is absent
from the builder's table cannot resolve: a successful `assemble` implies
every referenced name is declared, and the moment the patch walk reaches
such a statement it stops with `UndeclaredLabel` carrying exactly that
name. -/
theorem assemble_undeclared_label :
    (∀ (blk : Block) (base : Address) (size : Nat) (buffer : List Nat)
      (asm : AssembledBlock) (out : List Nat),
      blk.assemble base size buffer = some (Except.ok asm, out) →
      ∀ d ∈ blk.program, ∀ name, d.data.labelRef = some name →
        (findLabel blk.labels name).isSome = true)
  ∧ (∀ (lbls : List (String × Address)) (base : Address) (size : Nat)
      (buffer : List Nat) (d : DataAtOffset) (rest : List DataAtOffset) (name : String),
      d.data.labelRef = some name → findLabel lbls name = none →
      runPatch lbls base size (d :: rest) buffer
        = some (some (Error.undeclaredLabel name), buffer)) := by
  constructor
  · intro blk base size buffer asm out h d hd name href
    unfold Block.assemble at h
    cases hrp : runPatch blk.labels base size blk.program (vecResize buffer size) with
    | none => rw [hrp] at h; simp at h
    | some pr =>
      obtain ⟨e?, buf2⟩ := pr
      cases e? with
      | none =>
        exact runPatch_ok_labelRef blk.labels base size blk.program
          (vecResize buffer size) buf2 hrp d hd name href
      | some e => rw [hrp] at h; simp at h
  · intro lbls base size buffer d rest name href hfl
    obtain ⟨data, off⟩ := d
    cases data with
    | literalByte b => simp [Data.labelRef] at href
    | literalOffsetLe o2 => simp [Data.labelRef] at href
    | literalAddressLe a => simp [Data.labelRef] at href
    | labelOffsetLe l =>
      simp only [Data.labelRef, Option.some.injEq] at href
      subst href
      unfold runPatch patchStep
      dsimp only
      rw [hfl]
    | labelOffsetLo l =>
      simp only [Data.labelRef, Option.some.injEq] at href
      subst href
      unfold runPatch patchStep
      dsimp only
      rw [hfl]
    | labelOffsetHi l =>
      simp only [Data.labelRef, Option.some.injEq] at href
      subst href
      unfold runPatch patchStep
      dsimp only
      rw [hfl]
    | labelRelativeOffset l =>
      simp only [Data.labelRef, Option.some.injEq] at href
      subst href
      unfold runPatch patchStep
      dsimp only
      rw [hfl]

/-- Witness for C6: a successful resolve of a referencing program has its
label declared, and a reference to the undeclared `"missing"` stops the walk
with `UndeclaredLabel "missing"`. -/
theorem assemble_undeclared_label_witness :
    ((findLabel [("L", 10)] "L").isSome = true)
  ∧ runPatch [] 0 4 [⟨Data.labelOffsetLe "missing", 0⟩] (List.replicate 4 0)
      = some (some (Error.undeclaredLabel "missing"), List.replicate 4 0) :=
  ⟨assemble_undeclared_label.1 (fwdRefBlock "L" 0 10) 0x8000 32 []
      { labels := [("L", 0x800A)] } (((List.replicate 32 0).set 0 10).set 1 128) (by rfl)
      ⟨Data.labelOffsetLe "L", 0⟩ (List.mem_singleton.mpr rfl) "L" rfl,
   assemble_undeclared_label.2 [] 0 4 (List.replicate 4 0)
      ⟨Data.labelOffsetLe "missing", 0⟩ [] "missing" rfl (by rfl)⟩

/-- Claim C5: a `LabelOffsetLE` reference emitted before its label is
declared (a forward reference, built here through the public builder calls)
resolves successfully: with the label at block-relative offset `L` and base
`b` it writes `lo (L + b)` at index `o` and `hi (L + b)` at index `o + 1`. -/
theorem labelOffsetLe_forward_reference (name : String) (o L base size : Nat)
    (ho : o + 1 < size) :
    applyOps Block.new
        [Op.set_offset o, Op.label_offset_le name, Op.set_offset L, Op.label name]
      = some (fwdRefBlock name o L)
  ∧ (fwdRefBlock name o L).assemble base size []
      = some (Except.ok { labels := [(name, (L + base) % 65536)] },
          ((List.replicate size 0).set o (address.lo ((L + base) % 65536))).set (o + 1)
            (address.hi ((L + base) % 65536))) := by
  constructor
  · rfl
  · unfold Block.assemble fwdRefBlock runPatch patchStep writeByte relocateLabels
    simp only [vecResize_nil, findLabel, eq_self_iff_true, if_true]
    rw [if_neg (show ¬ size ≤ o + 1 by omega)]
    simp only [List.length_replicate]
    rw [if_pos (show o < size by omega)]
    simp only [Option.bind_eq_bind, Option.some_bind, List.length_set, List.length_replicate]
    rw [if_pos (show o + 1 < size by omega)]
    simp [runPatch]

/-- Witness for C5, at the spec's concrete test: label at offset 10,
base `0x8000`, size 32 — the patched bytes are `lo 0x800A` and
`hi 0x800A`. -/
theorem labelOffsetLe_forward_reference_witness :
    (fwdRefBlock "L" 0 10).assemble 0x8000 32 []
      = some (Except.ok { labels := [("L", 0x800A)] },
          (((List.replicate 32 0).set 0 (address.lo 0x800A)).set 1 (address.hi 0x800A))) :=
  ((labelOffsetLe_forward_reference "L" 0 10 0x8000 32 (by decide)).2).trans rfl


theorem findLabel_cons (k : String) (w : Address) (rest : List (String × Address))
    (name : String) :
    findLabel ((k, w) :: rest) name = if k = name then some w else findLabel rest name := rfl

theorem findLabel_append_some (l1 l2 : List (String × Address)) (name : String)
    (v : Address) (h : findLabel l1 name = some v) :
    findLabel (l1 ++ l2) name = some v := by
  induction l1 with
  | nil => simp [findLabel] at h
  | cons p rest ih =>
    obtain ⟨k, w⟩ := p
    rw [findLabel_cons] at h
    rw [List.cons_append, findLabel_cons]
    by_cases hk : k = name
    · simpa [hk] using h
    · rw [if_neg hk] at h ⊢
      exact ih h

theorem findLabel_append_none (l1 l2 : List (String × Address)) (name : String)
    (h : findLabel l1 name = none) :
    findLabel (l1 ++ l2) name = findLabel l2 name := by
  induction l1 with
  | nil => rfl
  | cons p rest ih =>
    obtain ⟨k, w⟩ := p
    rw [findLabel_cons] at h
    rw [List.cons_append, findLabel_cons]
    by_cases hk : k = name
    · rw [if_pos hk] at h; simp at h
    · rw [if_neg hk] at h ⊢
      exact ih h

theorem applyOps_findLabel_mono : ∀ (ops : List Op) (blk blk2 : Block)
    (name : String) (v : Address), applyOps blk ops = some blk2 →
    findLabel blk.labels name = some v → findLabel blk2.labels name = some v := by
  intro ops
  induction ops with
  | nil =>
    intro blk blk2 name v h hf
    simp only [applyOps, Option.some.injEq] at h
    subst h
    exact hf
  | cons op rest ih =>
    intro blk blk2 name v h hf
    unfold applyOps at h
    cases hop : applyOp blk op with
    | none => rw [hop] at h; simp at h
    | some blk1 =>
      rw [hop] at h
      simp only at h
      apply ih blk1 blk2 name v h
      cases op with
      | set_offset o =>
        simp only [applyOp, Option.some.injEq] at hop
        subst hop; exact hf
      | literal_byte b =>
        simp only [applyOp, Option.some.injEq] at hop
        subst hop; exact hf
      | literal_offset_le o =>
        simp only [applyOp, Option.some.injEq] at hop
        subst hop; exact hf
      | literal_address_le a =>
        simp only [applyOp, Option.some.injEq] at hop
        subst hop; exact hf
      | label_offset_le l =>
        simp only [applyOp, Option.some.injEq] at hop
        subst hop; exact hf
      | label_offset_lo l =>
        simp only [applyOp, Option.some.injEq] at hop
        subst hop; exact hf
      | label_offset_hi l =>
        simp only [applyOp, Option.some.injEq] at hop
        subst hop; exact hf
      | label_relative_offset l =>
        simp only [applyOp, Option.some.injEq] at hop
        subst hop; exact hf
      | label s =>
        simp only [applyOp] at hop
        unfold Block.label at hop
        by_cases hs : (findLabel blk.labels s).isSome
        · rw [if_pos hs] at hop; simp at hop
        · rw [if_neg hs] at hop
          simp only [Option.some.injEq] at hop
          subst hop
          exact findLabel_append_some _ _ _ _ hf

theorem applyOps_labels_firstDecl : ∀ (ops : List Op) (blk blk2 : Block) (name : String),
    applyOps blk ops = some blk2 →
    findLabel blk2.labels name
      = (firstDeclCursor blk.cursor_offset ops name).or (findLabel blk.labels name) := by
  intro ops
  induction ops with
  | nil =>
    intro blk blk2 name h
    simp only [applyOps, Option.some.injEq] at h
    subst h
    simp [firstDeclCursor]
  | cons op rest ih =>
    intro blk blk2 name h
    unfold applyOps at h
    cases hop : applyOp blk op with
    | none => rw [hop] at h; simp at h
    | some blk1 =>
      rw [hop] at h
      simp only at h
      cases op with
      | set_offset o =>
        simp only [applyOp, Option.some.injEq] at hop
        subst hop; exact ih _ blk2 name h
      | literal_byte b =>
        simp only [applyOp, Option.some.injEq] at hop
        subst hop; exact ih _ blk2 name h
      | literal_offset_le o =>
        simp only [applyOp, Option.some.injEq] at hop
        subst hop; exact ih _ blk2 name h
      | literal_address_le a =>
        simp only [applyOp, Option.some.injEq] at hop
        subst hop; exact ih _ blk2 name h
      | label_offset_le l =>
        simp only [applyOp, Option.some.injEq] at hop
        subst hop; exact ih _ blk2 name h
      | label_offset_lo l =>
        simp only [applyOp, Option.some.injEq] at hop
        subst hop; exact ih _ blk2 name h
      | label_offset_hi l =>
        simp only [applyOp, Option.some.injEq] at hop
        subst hop; exact ih _ blk2 name h
      | label_relative_offset l =>
        simp only [applyOp, Option.some.injEq] at hop
        subst hop; exact ih _ blk2 name h
      | label s =>
        simp only [applyOp] at hop
        unfold Block.label at hop
        by_cases hs : (findLabel blk.labels s).isSome
        · rw [if_pos hs] at hop; simp at hop
        · rw [if_neg hs] at hop
          simp only [Option.some.injEq] at hop
          subst hop
          have h0 : findLabel blk.labels s = none := by
            cases hfb : findLabel blk.labels s with
            | none => rfl
            | some v => rw [hfb] at hs; simp at hs
          by_cases hsn : s = name
          · subst hsn
            have h1 : findLabel (blk.labels ++ [(s, blk.cursor_offset)]) s
                = some blk.cursor_offset := by
              rw [findLabel_append_none _ _ _ h0]
              simp [findLabel]
            have h2 := applyOps_findLabel_mono rest _ blk2 s blk.cursor_offset h h1
            rw [h2]
            simp [firstDeclCursor]
          · have h3 := ih _ blk2 name h
            rw [h3]
            dsimp only
            have h4 : findLabel (blk.labels ++ [(s, blk.cursor_offset)]) name
                = findLabel blk.labels name := by
              cases hfb : findLabel blk.labels name with
              | some v => exact findLabel_append_some _ _ _ _ hfb
              | none => rw [findLabel_append_none _ _ _ hfb]; simp [findLabel, hsn]
            rw [h4]
            simp only [firstDeclCursor, if_neg hsn]

/-- Claim C7: declaring an already-present label name is a fatal failure
(the builder panics rather than overwriting), and after any successful
sequence of builder calls each name maps to the cursor value at its first
declaration. -/
theorem label_duplicate_first_decl :
    (∀ (blk : Block) (name : String), (findLabel blk.labels name).isSome = true →
      blk.label name = none)
  ∧ (∀ (ops : List Op) (blk : Block) (name : String),
      applyOps Block.new ops = some blk →
      findLabel blk.labels name = firstDeclCursor 0 ops name) := by
  constructor
  · intro blk name h
    simp [Block.label, h]
  · intro ops blk name h
    have h2 := applyOps_labels_firstDecl ops Block.new blk name h
    rw [h2]
    show (firstDeclCursor 0 ops name).or (findLabel [] name) = firstDeclCursor 0 ops name
    simp [findLabel]

/-- Witness for C7: a duplicate declaration of `"a"` aborts, and after
`literal_byte 7; label "a"` the name `"a"` maps to cursor value 1, its first
declaration point. -/
theorem label_duplicate_first_decl_witness :
    (({ cursor_offset := 0, program := [], labels := [("a", 0)] } : Block).label "a" = none)
  ∧ findLabel [("a", 1)] "a" = some 1 :=
  ⟨label_duplicate_first_decl.1 { cursor_offset := 0, program := [], labels := [("a", 0)] } "a" (by rfl),
   (label_duplicate_first_decl.2 [Op.literal_byte 7, Op.label "a"]
      { cursor_offset := 1, program := [⟨Data.literalByte 7, 0⟩], labels := [("a", 1)] }
      "a" (by rfl)).trans (by rfl)⟩


theorem writeByte_some (buffer b2 : List Nat) (i v : Nat)
    (h : writeByte buffer i v = some b2) : i < buffer.length ∧ b2 = buffer.set i v := by
  unfold writeByte at h
  by_cases hi : i < buffer.length
  · rw [if_pos hi] at h
    simp only [Option.some.injEq] at h
    exact ⟨hi, h.symm⟩
  · rw [if_neg hi] at h
    simp at h

theorem writeByte_of_lt (buffer : List Nat) (i v : Nat) (h : i < buffer.length) :
    writeByte buffer i v = some (buffer.set i v) := by
  unfold writeByte
  rw [if_pos h]

theorem length_writeData (lbls : List (String × Address)) (base : Address)
    (buffer : List Nat) (d : DataAtOffset) :
    (writeData lbls base buffer d).length = buffer.length := by
  obtain ⟨data, off⟩ := d
  cases data with
  | literalByte b => simp [writeData]
  | literalOffsetLe o2 => simp [writeData]
  | literalAddressLe a => simp [writeData]
  | labelOffsetLe l => cases hfl : findLabel lbls l <;> simp [writeData, hfl]
  | labelOffsetLo l => cases hfl : findLabel lbls l <;> simp [writeData, hfl]
  | labelOffsetHi l => cases hfl : findLabel lbls l <;> simp [writeData, hfl]
  | labelRelativeOffset l => cases hfl : findLabel lbls l <;> simp [writeData, hfl]

theorem patchStep_ok_transfer (lbls : List (String × Address)) (base : Address)
    (size : Nat) (buffer buf2 : List Nat) (d : DataAtOffset)
    (hps : patchStep lbls base size buffer d = some (Except.ok buf2)) :
    buf2 = writeData lbls base buffer d
  ∧ ∀ c : List Nat, c.length = buffer.length →
      patchStep lbls base size c d = some (Except.ok (writeData lbls base c d)) := by
  obtain ⟨data, off⟩ := d
  cases data with
  | literalByte b =>
    unfold patchStep at hps
    dsimp only at hps
    by_cases hb : size ≤ off
    · rw [if_pos hb] at hps; simp at hps
    · rw [if_neg hb] at hps
      simp only [Option.map_eq_some'] at hps
      obtain ⟨a, hw, ha⟩ := hps
      obtain ⟨hlt, hset⟩ := writeByte_some _ _ _ _ hw
      subst hset
      cases ha
      constructor
      · unfold writeData; rfl
      · intro c hlen
        unfold patchStep writeData
        dsimp only
        rw [if_neg hb, writeByte_of_lt c off b (by rw [hlen]; exact hlt)]
        rfl
  | literalOffsetLe o2 =>
    unfold patchStep at hps
    dsimp only at hps
    by_cases hb : size ≤ off + 1
    · rw [if_pos hb] at hps; simp at hps
    · rw [if_neg hb] at hps
      simp only [Option.map_eq_some', Option.bind_eq_some] at hps
      obtain ⟨a, ⟨b1, hw1, hw2⟩, ha⟩ := hps
      cases ha
      obtain ⟨hlt1, hset1⟩ := writeByte_some _ _ _ _ hw1
      subst hset1
      obtain ⟨hlt2, hset2⟩ := writeByte_some _ _ _ _ hw2
      subst hset2
      rw [List.length_set] at hlt2
      constructor
      · unfold writeData; rfl
      · intro c hlen
        unfold patchStep writeData
        dsimp only
        rw [if_neg hb, writeByte_of_lt c off _ (by rw [hlen]; exact hlt1)]
        simp only [Option.some_bind]
        rw [writeByte_of_lt _ _ _ (by rw [List.length_set, hlen]; exact hlt2)]
        rfl
  | literalAddressLe a0 =>
    unfold patchStep at hps
    dsimp only at hps
    simp only [Option.map_eq_some', Option.bind_eq_some] at hps
    obtain ⟨a, ⟨b1, hw1, hw2⟩, ha⟩ := hps
    cases ha
    obtain ⟨hlt1, hset1⟩ := writeByte_some _ _ _ _ hw1
    subst hset1
    obtain ⟨hlt2, hset2⟩ := writeByte_some _ _ _ _ hw2
    subst hset2
    rw [List.length_set] at hlt2
    constructor
    · unfold writeData; rfl
    · intro c hlen
      unfold patchStep writeData
      dsimp only
      rw [writeByte_of_lt c off _ (by rw [hlen]; exact hlt1)]
      simp only [Option.some_bind]
      rw [writeByte_of_lt _ _ _ (by rw [List.length_set, hlen]; exact hlt2)]
      rfl
  | labelOffsetLe l =>
    unfold patchStep at hps
    dsimp only at hps
    cases hfl : findLabel lbls l with
    | none => rw [hfl] at hps; simp at hps
    | some lofs =>
      rw [hfl] at hps
      dsimp only at hps
      by_cases hb : size ≤ off + 1
      · rw [if_pos hb] at hps; simp at hps
      · rw [if_neg hb] at hps
        simp only [Option.map_eq_some', Option.bind_eq_some] at hps
        obtain ⟨a, ⟨b1, hw1, hw2⟩, ha⟩ := hps
        cases ha
        obtain ⟨hlt1, hset1⟩ := writeByte_some _ _ _ _ hw1
        subst hset1
        obtain ⟨hlt2, hset2⟩ := writeByte_some _ _ _ _ hw2
        subst hset2
        rw [List.length_set] at hlt2
        constructor
        · unfold writeData; dsimp only; rw [hfl]
        · intro c hlen
          unfold patchStep writeData
          dsimp only
          rw [hfl]
          dsimp only
          rw [if_neg hb, writeByte_of_lt c off _ (by rw [hlen]; exact hlt1)]
          simp only [Option.some_bind]
          rw [writeByte_of_lt _ _ _ (by rw [List.length_set, hlen]; exact hlt2)]
          rfl
  | labelOffsetLo l =>
    unfold patchStep at hps
    dsimp only at hps
    cases hfl : findLabel lbls l with
    | none => rw [hfl] at hps; simp at hps
    | some lofs =>
      rw [hfl] at hps
      dsimp only at hps
      by_cases hb : size ≤ off + 1
      · rw [if_pos hb] at hps; simp at hps
      · rw [if_neg hb] at hps
        simp only [Option.map_eq_some'] at hps
        obtain ⟨a, hw, ha⟩ := hps
        cases ha
        obtain ⟨hlt, hset⟩ := writeByte_some _ _ _ _ hw
        subst hset
        constructor
        · unfold writeData; dsimp only; rw [hfl]
        · intro c hlen
          unfold patchStep writeData
          dsimp only
          rw [hfl]
          dsimp only
          rw [if_neg hb, writeByte_of_lt c off _ (by rw [hlen]; exact hlt)]
          rfl
  | labelOffsetHi l =>
    unfold patchStep at hps
    dsimp only at hps
    cases hfl : findLabel lbls l with
    | none => rw [hfl] at hps; simp at hps
    | some lofs =>
      rw [hfl] at hps
      dsimp only at hps
      by_cases hb : size ≤ off + 1
      · rw [if_pos hb] at hps; simp at hps
      · rw [if_neg hb] at hps
        simp only [Option.map_eq_some'] at hps
        obtain ⟨a, hw, ha⟩ := hps
        cases ha
        obtain ⟨hlt, hset⟩ := writeByte_some _ _ _ _ hw
        subst hset
        constructor
        · unfold writeData; dsimp only; rw [hfl]
        · intro c hlen
          unfold patchStep writeData
          dsimp only
          rw [hfl]
          dsimp only
          rw [if_neg hb, writeByte_of_lt c off _ (by rw [hlen]; exact hlt)]
          rfl
  | labelRelativeOffset l =>
    unfold patchStep at hps
    dsimp only at hps
    cases hfl : findLabel lbls l with
    | none => rw [hfl] at hps; simp at hps
    | some lofs =>
      rw [hfl] at hps
      dsimp only at hps
      by_cases hb : wrapI16 (wrapI16 (i16OfU16 lofs - i16OfU16 off) - 1) < -128
          ∨ 127 < wrapI16 (wrapI16 (i16OfU16 lofs - i16OfU16 off) - 1)
      · rw [if_pos hb] at hps; simp at hps
      · rw [if_neg hb] at hps
        simp only [Option.map_eq_some'] at hps
        obtain ⟨a, hw, ha⟩ := hps
        cases ha
        obtain ⟨hlt, hset⟩ := writeByte_some _ _ _ _ hw
        subst hset
        constructor
        · unfold writeData; dsimp only; rw [hfl]
        · intro c hlen
          unfold patchStep writeData
          dsimp only
          rw [hfl]
          dsimp only
          rw [if_neg hb, writeByte_of_lt c off _ (by rw [hlen]; exact hlt)]
          rfl


theorem runPatch_some_length (lbls : List (String × Address)) (base : Address)
    (size : Nat) : ∀ (stmts : List DataAtOffset) (buffer out : List Nat)
    (e? : Option Error), runPatch lbls base size stmts buffer = some (e?, out) →
    out.length = buffer.length := by
  intro stmts
  induction stmts with
  | nil =>
    intro buffer out e? h
    simp only [runPatch, Option.some.injEq, Prod.mk.injEq] at h
    rw [← h.2]
  | cons d0 rest ih =>
    intro buffer out e? h
    unfold runPatch at h
    cases hps : patchStep lbls base size buffer d0 with
    | none => rw [hps] at h; simp at h
    | some r =>
      cases r with
      | error e =>
        rw [hps] at h
        simp only [Option.some.injEq, Prod.mk.injEq] at h
        rw [← h.2]
      | ok buf2 =>
        rw [hps] at h
        simp only at h
        have h2 := ih buf2 out e? h
        have h3 := (patchStep_ok_transfer lbls base size buffer buf2 d0 hps).1
        rw [h2, h3, length_writeData]

theorem length_applyWrites (lbls : List (String × Address)) (base : Address) :
    ∀ (stmts : List DataAtOffset) (buffer : List Nat),
    (applyWrites lbls base stmts buffer).length = buffer.length := by
  intro stmts
  induction stmts with
  | nil => intro buffer; rfl
  | cons d0 rest ih =>
    intro buffer
    show (applyWrites lbls base rest (writeData lbls base buffer d0)).length = buffer.length
    rw [ih, length_writeData]

theorem runPatch_ok_transfer (lbls : List (String × Address)) (base : Address)
    (size : Nat) : ∀ (stmts : List DataAtOffset) (buffer out : List Nat),
    runPatch lbls base size stmts buffer = some (none, out) →
    out = applyWrites lbls base stmts buffer
  ∧ ∀ c : List Nat, c.length = buffer.length →
      runPatch lbls base size stmts c = some (none, applyWrites lbls base stmts c) := by
  intro stmts
  induction stmts with
  | nil =>
    intro buffer out h
    simp only [runPatch, Option.some.injEq, Prod.mk.injEq] at h
    refine ⟨h.2.symm, fun c hlen => rfl⟩
  | cons d0 rest ih =>
    intro buffer out h
    unfold runPatch at h
    cases hps : patchStep lbls base size buffer d0 with
    | none => rw [hps] at h; simp at h
    | some r =>
      cases r with
      | error e => rw [hps] at h; simp at h
      | ok buf2 =>
        rw [hps] at h
        simp only at h
        obtain ⟨hw, htr⟩ := patchStep_ok_transfer lbls base size buffer buf2 d0 hps
        obtain ⟨hout, hloop⟩ := ih buf2 out h
        constructor
        · show out = applyWrites lbls base rest (writeData lbls base buffer d0)
          rw [hout, hw]
        · intro c hlen
          show runPatch lbls base size (d0 :: rest) c
            = some (none, applyWrites lbls base rest (writeData lbls base c d0))
          unfold runPatch
          rw [htr c hlen]
          exact hloop (writeData lbls base c d0)
            (by rw [length_writeData, hlen, hw, length_writeData])

theorem length_vecResize (buffer : List Nat) (size : Nat) :
    (vecResize buffer size).length = size := by
  unfold vecResize
  simp only [List.length_append, List.length_take, List.length_replicate]
  omega

theorem vecResize_of_length (buffer : List Nat) (size : Nat)
    (h : buffer.length = size) : vecResize buffer size = buffer := by
  unfold vecResize
  rw [← h, List.take_length, Nat.sub_self]
  simp

theorem set_getElem?_pair (x y : List Nat) (p v i : Nat) (hlen : x.length = y.length) :
    ((x.set p v)[i]? = x[i]? ∧ (y.set p v)[i]? = y[i]?)
  ∨ (x.set p v)[i]? = (y.set p v)[i]? := by
  by_cases hpi : p = i
  · subst hpi
    right
    rw [List.getElem?_set, List.getElem?_set]
    simp [hlen]
  · left
    constructor <;> rw [List.getElem?_set_ne hpi]

theorem setset_getElem?_pair (x y : List Nat) (p q v w i : Nat)
    (hlen : x.length = y.length) :
    (((x.set p v).set q w)[i]? = x[i]? ∧ ((y.set p v).set q w)[i]? = y[i]?)
  ∨ ((x.set p v).set q w)[i]? = ((y.set p v).set q w)[i]? := by
  by_cases hq : q = i
  · subst hq
    right
    simp [List.getElem?_set, List.length_set, hlen]
  · rw [List.getElem?_set_ne hq, List.getElem?_set_ne hq]
    exact set_getElem?_pair x y p v i hlen

theorem writeData_getElem?_pair (lbls : List (String × Address)) (base : Address)
    (x y : List Nat) (d : DataAtOffset) (i : Nat) (hlen : x.length = y.length) :
    ((writeData lbls base x d)[i]? = x[i]? ∧ (writeData lbls base y d)[i]? = y[i]?)
  ∨ (writeData lbls base x d)[i]? = (writeData lbls base y d)[i]? := by
  obtain ⟨data, off⟩ := d
  cases data with
  | literalByte b =>
    unfold writeData
    exact set_getElem?_pair x y off b i hlen
  | literalOffsetLe o2 =>
    unfold writeData
    exact setset_getElem?_pair x y off (off + 1) _ _ i hlen
  | literalAddressLe a =>
    unfold writeData
    exact setset_getElem?_pair x y off (off + 1) _ _ i hlen
  | labelOffsetLe l =>
    unfold writeData
    dsimp only
    cases hfl : findLabel lbls l with
    | none => left; exact ⟨rfl, rfl⟩
    | some lofs => exact setset_getElem?_pair x y off (off + 1) _ _ i hlen
  | labelOffsetLo l =>
    unfold writeData
    dsimp only
    cases hfl : findLabel lbls l with
    | none => left; exact ⟨rfl, rfl⟩
    | some lofs => exact set_getElem?_pair x y off _ i hlen
  | labelOffsetHi l =>
    unfold writeData
    dsimp only
    cases hfl : findLabel lbls l with
    | none => left; exact ⟨rfl, rfl⟩
    | some lofs => exact set_getElem?_pair x y off _ i hlen
  | labelRelativeOffset l =>
    unfold writeData
    dsimp only
    cases hfl : findLabel lbls l with
    | none => left; exact ⟨rfl, rfl⟩
    | some lofs => exact set_getElem?_pair x y off _ i hlen

theorem applyWrites_stable (lbls : List (String × Address)) (base : Address) :
    ∀ (stmts : List DataAtOffset) (u t : List Nat), t.length = u.length →
    (∀ i : Nat, t[i]? = u[i]? ∨ t[i]? = (applyWrites lbls base stmts u)[i]?) →
    applyWrites lbls base stmts t = applyWrites lbls base stmts u := by
  intro stmts
  induction stmts with
  | nil =>
    intro u t hlen hp
    apply List.ext_getElem?
    intro i
    rcases hp i with h | h <;> exact h
  | cons d0 rest ih =>
    intro u t hlen hp
    show applyWrites lbls base rest (writeData lbls base t d0)
      = applyWrites lbls base rest (writeData lbls base u d0)
    apply ih
    · rw [length_writeData, length_writeData, hlen]
    · intro i
      rcases writeData_getElem?_pair lbls base t u d0 i hlen with ⟨ht, hu⟩ | heq
      · rw [ht, hu]
        rcases hp i with h | h
        · left; exact h
        · right; exact h
      · left; exact heq

theorem applyWrites_idem (lbls : List (String × Address)) (base : Address)
    (stmts : List DataAtOffset) (u : List Nat) :
    applyWrites lbls base stmts (applyWrites lbls base stmts u)
      = applyWrites lbls base stmts u :=
  applyWrites_stable lbls base stmts u (applyWrites lbls base stmts u)
    (length_applyWrites lbls base stmts u) (fun i => Or.inr rfl)

/-- Claim C8: resolution is idempotent — re-invoking `assemble` with the
same builder, base, and size on the buffer the first call produced returns
the identical relocated label table and the byte-identical buffer.
(Resolution is a pure function of the builder state, base, size, and buffer
in this embedding, which is the determinism half of the claim; `assemble`
takes the builder by shared reference in the source and cannot mutate
it.) -/
theorem assemble_idempotent (blk : Block) (base : Address) (size : Nat)
    (buffer : List Nat) (asm : AssembledBlock) (out : List Nat)
    (h : blk.assemble base size buffer = some (Except.ok asm, out)) :
    blk.assemble base size out = some (Except.ok asm, out) := by
  unfold Block.assemble at h ⊢
  cases hrp : runPatch blk.labels base size blk.program (vecResize buffer size) with
  | none => rw [hrp] at h; simp at h
  | some pr =>
    obtain ⟨e?, buf2⟩ := pr
    cases e? with
    | some e => rw [hrp] at h; simp at h
    | none =>
      rw [hrp] at h
      simp only [Option.some.injEq, Prod.mk.injEq, Except.ok.injEq] at h
      obtain ⟨hasm, hout⟩ := h
      subst hout
      obtain ⟨hval, htr⟩ := runPatch_ok_transfer blk.labels base size blk.program
        (vecResize buffer size) buf2 hrp
      have hlen2 : buf2.length = size := by
        rw [hval, length_applyWrites, length_vecResize]
      rw [vecResize_of_length buf2 size hlen2]
      have h2 := htr buf2 (by rw [hlen2, length_vecResize])
      rw [h2]
      have h3 : applyWrites blk.labels base blk.program buf2 = buf2 := by
        rw [hval]
        exact applyWrites_idem blk.labels base blk.program (vecResize buffer size)
      rw [h3, ← hasm]

/-- Witness for C8 on a concrete program: re-assembling onto the produced
buffer `[7, 0]` reproduces it exactly. -/
theorem assemble_idempotent_witness :
    (Block.new.literal_byte 7).assemble 0 2 [7, 0]
      = some (Except.ok { labels := [] }, [7, 0]) :=
  assemble_idempotent (Block.new.literal_byte 7) 0 2 [] { labels := [] } [7, 0] (by rfl)


theorem writeData_getElem?_not_writesAt (lbls : List (String × Address)) (base : Address)
    (x : List Nat) (d : DataAtOffset) (i : Nat) (h : ¬ d.writesAt i) :
    (writeData lbls base x d)[i]? = x[i]? := by
  obtain ⟨data, off⟩ := d
  cases data with
  | literalByte b =>
    simp only [DataAtOffset.writesAt, Data.width, not_or, true_and] at h
    unfold writeData
    rw [List.getElem?_set_ne (fun he => h.1 he.symm)]
  | literalOffsetLe o2 =>
    simp only [DataAtOffset.writesAt, Data.width, not_or, true_and] at h
    unfold writeData
    dsimp only
    rw [List.getElem?_set_ne (fun he => h.2 he.symm),
      List.getElem?_set_ne (fun he => h.1 he.symm)]
  | literalAddressLe a =>
    simp only [DataAtOffset.writesAt, Data.width, not_or, true_and] at h
    unfold writeData
    dsimp only
    rw [List.getElem?_set_ne (fun he => h.2 he.symm),
      List.getElem?_set_ne (fun he => h.1 he.symm)]
  | labelOffsetLe l =>
    simp only [DataAtOffset.writesAt, Data.width, not_or, true_and] at h
    unfold writeData
    dsimp only
    cases hfl : findLabel lbls l with
    | none => rfl
    | some lofs =>
      rw [List.getElem?_set_ne (fun he => h.2 he.symm),
        List.getElem?_set_ne (fun he => h.1 he.symm)]
  | labelOffsetLo l =>
    simp only [DataAtOffset.writesAt, Data.width, not_or, true_and] at h
    unfold writeData
    dsimp only
    cases hfl : findLabel lbls l with
    | none => rfl
    | some lofs => rw [List.getElem?_set_ne (fun he => h.1 he.symm)]
  | labelOffsetHi l =>
    simp only [DataAtOffset.writesAt, Data.width, not_or, true_and] at h
    unfold writeData
    dsimp only
    cases hfl : findLabel lbls l with
    | none => rfl
    | some lofs => rw [List.getElem?_set_ne (fun he => h.1 he.symm)]
  | labelRelativeOffset l =>
    simp only [DataAtOffset.writesAt, Data.width, not_or, true_and] at h
    unfold writeData
    dsimp only
    cases hfl : findLabel lbls l with
    | none => rfl
    | some lofs => rw [List.getElem?_set_ne (fun he => h.1 he.symm)]

theorem applyWrites_getElem?_untouched (lbls : List (String × Address)) (base : Address) :
    ∀ (stmts : List DataAtOffset) (x : List Nat) (i : Nat),
    (∀ d ∈ stmts, ¬ d.writesAt i) → (applyWrites lbls base stmts x)[i]? = x[i]? := by
  intro stmts
  induction stmts with
  | nil => intro x i h; rfl
  | cons d0 rest ih =>
    intro x i h
    show (applyWrites lbls base rest (writeData lbls base x d0))[i]? = x[i]?
    rw [ih _ i (fun d hd => h d (List.mem_cons_of_mem d0 hd))]
    exact writeData_getElem?_not_writesAt lbls base x d0 i (h d0 (List.mem_cons_self d0 rest))

theorem vecResize_getElem?_of_ge (buffer : List Nat) (size i : Nat)
    (h1 : buffer.length ≤ i) (h2 : i < size) : (vecResize buffer size)[i]? = some 0 := by
  unfold vecResize
  rw [List.getElem?_append_right (by rw [List.length_take]; omega)]
  rw [List.length_take, List.getElem?_replicate]
  rw [if_pos (by omega)]

/-- Claim C2 (amended): `assemble` always makes the output buffer exactly
`size` bytes long, and on success every position at index at least the
initial buffer's length (in particular every position when the caller's
buffer is empty) that no statement's patch wrote holds 0.  Positions below
the initial buffer's length keep the caller's bytes — see the
counterexample. -/
theorem assemble_buffer_size_and_zero_fill :
    (∀ (blk : Block) (base : Address) (size : Nat) (buffer out : List Nat)
      (res : Except Error AssembledBlock),
      blk.assemble base size buffer = some (res, out) → out.length = size)
  ∧ (∀ (blk : Block) (base : Address) (size : Nat) (buffer out : List Nat)
      (asm : AssembledBlock) (i : Nat),
      blk.assemble base size buffer = some (Except.ok asm, out) →
      buffer.length ≤ i → i < size →
      (∀ d ∈ blk.program, ¬ d.writesAt i) → out[i]? = some 0) := by
  constructor
  · intro blk base size buffer out res h
    unfold Block.assemble at h
    cases hrp : runPatch blk.labels base size blk.program (vecResize buffer size) with
    | none => rw [hrp] at h; simp at h
    | some pr =>
      obtain ⟨e?, buf2⟩ := pr
      have hlen := runPatch_some_length blk.labels base size blk.program
        (vecResize buffer size) buf2 e? hrp
      cases e? with
      | some e =>
        rw [hrp] at h
        simp only [Option.some.injEq, Prod.mk.injEq] at h
        rw [← h.2, hlen, length_vecResize]
      | none =>
        rw [hrp] at h
        simp only [Option.some.injEq, Prod.mk.injEq] at h
        rw [← h.2, hlen, length_vecResize]
  · intro blk base size buffer out asm i h hge hlt huntouched
    unfold Block.assemble at h
    cases hrp : runPatch blk.labels base size blk.program (vecResize buffer size) with
    | none => rw [hrp] at h; simp at h
    | some pr =>
      obtain ⟨e?, buf2⟩ := pr
      cases e? with
      | some e => rw [hrp] at h; simp at h
      | none =>
        rw [hrp] at h
        simp only [Option.some.injEq, Prod.mk.injEq, Except.ok.injEq] at h
        obtain ⟨hasm, hout⟩ := h
        subst hout
        obtain ⟨hval, htr⟩ := runPatch_ok_transfer blk.labels base size blk.program
          (vecResize buffer size) buf2 hrp
        rw [hval, applyWrites_getElem?_untouched blk.labels base blk.program _ i huntouched]
        exact vecResize_getElem?_of_ge buffer size i hge hlt

/-- Witness for the amended C2: resizing `[5]` to 3 gives a 3-byte buffer,
and assembling `literal_byte 7` into an empty initial buffer with size 2
leaves the unwritten position 1 equal to 0. -/
theorem assemble_buffer_size_and_zero_fill_witness :
    ([5, 0, 0] : List Nat).length = 3 ∧ ([7, 0] : List Nat)[1]? = some 0 :=
  ⟨assemble_buffer_size_and_zero_fill.1 Block.new 0 3 [5] [5, 0, 0]
      (Except.ok { labels := [] }) (by rfl),
   assemble_buffer_size_and_zero_fill.2 (Block.new.literal_byte 7) 0 2 [] [7, 0]
      { labels := [] } 1 (by rfl) (by decide) (by decide) (by decide)⟩

end MX6502
